import Mathlib

/-!
Verification of the IDERA geographic-object validator (`app.py`).

The development shallowly embeds the pure data-processing core of the
application: field-name truncation for shapefile export (`truncar_unico`),
text encoding repair (`reparar_encoding`), geometry-type normalization
(`normalizar_geometria`), construction of the clean attribute table
(`gdf_limpio`), and the final IDERA validation (`validar_idera`).

Python strings are modelled as `List Char`; a pandas/geopandas data frame is
modelled as an ordered list of named columns, each a list of cell values.
-/

namespace Idera

/-- A Python string: a sequence of characters. -/
abbrev Str := List Char

/-- A point coordinate pair (coordinates abstracted as integers; no claim
depends on coordinate arithmetic). -/
structure Pt where
  x : Int
  y : Int
deriving DecidableEq, Repr

/-- The shapely geometry values the app manipulates. -/
inductive Geometry where
  | point (p : Pt)
  | lineString (coords : List Pt)
  | polygon (rings : List (List Pt))
  | multiPoint (pts : List Pt)
  | multiLineString (lines : List (List Pt))
  | multiPolygon (polys : List (List (List Pt)))
deriving DecidableEq, Repr

/-- `geom_type` of a shapely geometry, as the string geopandas reports. -/
def geomType : Geometry → Str
  | .point _ => "Point".data
  | .lineString _ => "LineString".data
  | .polygon _ => "Polygon".data
  | .multiPoint _ => "MultiPoint".data
  | .multiLineString _ => "MultiLineString".data
  | .multiPolygon _ => "MultiPolygon".data

/-- A cell value of the attribute/geometry table: a string, an integer, a
boolean, a null (`None`/`pd.NA`), or a geometry. -/
inductive Value where
  | str (s : Str)
  | int (n : Int)
  | bool (b : Bool)
  | null
  | geom (g : Geometry)
deriving DecidableEq, Repr

/-- `pd.isna` on a cell value: only null is missing. -/
def isna : Value → Bool
  | .null => true
  | _ => false

/-- `geom_type` of a cell of the geometry column (a non-geometry cell has no
geometry type; geopandas reports `None`, modelled as `"None"`). -/
def cellGeomType : Value → Str
  | .geom g => geomType g
  | _ => "None".data

/-- A data frame: ordered named columns, each a list of cell values. -/
abbrev DF := List (Str × List Value)

/-- The geometry column name. -/
def geometryName : Str := "geometry".data

/-- Column lookup `df[name]` (first column with that name). -/
def getCol : DF → Str → List Value
  | [], _ => []
  | (n, vs) :: rest, name => if n = name then vs else getCol rest name

/-- Column names of a data frame (`df.columns`). -/
def colNames (df : DF) : List Str := df.map Prod.fst

/-- Column assignment `df[name] = vs`: overwrite in place if the column
exists, otherwise append it on the right. -/
def setCol (df : DF) (name : Str) (vs : List Value) : DF :=
  if name ∈ colNames df then
    df.map (fun p => if p.1 = name then (p.1, vs) else p)
  else
    df ++ [(name, vs)]

/-- Number of rows of a (geo) data frame, read off the geometry column. -/
def nRows (df : DF) : Nat := (getCol df geometryName).length

-- ------------------------------
-- Field-name truncator (`truncar_unico`, app.py lines 101–113)
-- ------------------------------

/-- Python slice `s[:k]` for a possibly negative bound `k` (a negative bound
counts from the end, clamped at zero). -/
def pySlice (s : Str) (k : Int) : Str :=
  if 0 ≤ k then s.take k.toNat else s.take (s.length - (-k).toNat)

/-- Python `str(n)` for a natural number: decimal digits. -/
def strNat (n : Nat) : Str :=
  Nat.toDigits 10 n

/-- Lookup in the `usados` dictionary. -/
def lookupCount : List (Str × Nat) → Str → Option Nat
  | [], _ => none
  | (k, n) :: rest, key => if k = key then some n else lookupCount rest key

/-- `usados[base] += 1`. -/
def bump (u : List (Str × Nat)) (key : Str) : List (Str × Nat) :=
  u.map (fun p => if p.1 = key then (p.1, p.2 + 1) else p)

/-- The loop of `truncar_unico`, carrying the `usados` dictionary. -/
def truncarAux : List Str → List (Str × Nat) → List Str
  | [], _ => []
  | c :: rest, usados =>
    let base := c.take 10
    match lookupCount usados base with
    | none => base :: truncarAux rest ((base, 1) :: usados)
    | some n =>
      let suf := strNat (n + 1)
      (pySlice base (10 - (suf.length : Int)) ++ suf) ::
        truncarAux rest (bump usados base)

/-- `truncar_unico(cols)` (app.py lines 101–113): truncate every column name
to the first 10 characters; on a repeated candidate, append the (bumped)
occurrence count, trimming the candidate so the result still has 10
characters. -/
def truncar_unico (cols : List Str) : List Str :=
  truncarAux cols []

-- ------------------------------
-- Encoding repair (`reparar_encoding`, app.py lines 68–74)
-- ------------------------------

/-- Python `texto.encode("latin1")`: one byte per character when every
character is below U+0100, otherwise a `UnicodeEncodeError` (`none`). -/
def encodeLatin1 (s : Str) : Option (List Nat) :=
  if s.all (fun c => c.toNat < 256) then some (s.map (fun c => c.toNat)) else none

/-- Is a byte a UTF-8 continuation byte (`0x80`–`0xBF`)? -/
def isCont (b : Nat) : Bool := 128 ≤ b && b < 192

/-- Python `bytes.decode("utf-8")`: strict UTF-8 decoding, rejecting stray
continuation bytes, truncated sequences, overlong encodings, surrogates and
out-of-range code points (`none` models `UnicodeDecodeError`). -/
def decodeUtf8 : List Nat → Option Str
  | [] => some []
  | b :: bs =>
    if b < 128 then
      (decodeUtf8 bs).map (fun cs => Char.ofNat b :: cs)
    else if b < 194 then none
    else if b < 224 then
      match bs with
      | b1 :: bs2 =>
        if isCont b1 then
          (decodeUtf8 bs2).map (fun cs => Char.ofNat ((b - 192) * 64 + (b1 - 128)) :: cs)
        else none
      | [] => none
    else if b < 240 then
      match bs with
      | b1 :: b2 :: bs2 =>
        if isCont b1 && isCont b2 then
          let cp := (b - 224) * 4096 + (b1 - 128) * 64 + (b2 - 128)
          if cp < 2048 || (55296 ≤ cp && cp < 57344) then none
          else (decodeUtf8 bs2).map (fun cs => Char.ofNat cp :: cs)
        else none
      | _ => none
    else if b < 245 then
      match bs with
      | b1 :: b2 :: b3 :: bs2 =>
        if isCont b1 && isCont b2 && isCont b3 then
          let cp := (b - 240) * 262144 + (b1 - 128) * 4096 + (b2 - 128) * 64 + (b3 - 128)
          if cp < 65536 || 1114112 ≤ cp then none
          else (decodeUtf8 bs2).map (fun cs => Char.ofNat cp :: cs)
        else none
      | _ => none
    else none

/-- `reparar_encoding(texto)` (app.py lines 68–74): non-strings are returned
as given; a string is re-encoded as Latin-1 and re-decoded as UTF-8, and on
any failure of that round trip the original string is returned. -/
def reparar_encoding (v : Value) : Value :=
  match v with
  | .str s =>
    match encodeLatin1 s with
    | none => .str s
    | some bytes =>
      match decodeUtf8 bytes with
      | none => .str s
      | some t => .str t
  | v => v

-- ------------------------------
-- Geometry normalization (`normalizar_geometria`, app.py lines 76–99)
-- ------------------------------

/-- `MAPEO_GEOMETRIA.get(g, [])` (app.py lines 43–47): expand an IDERA
geometry kind into the list of admitted GIS kinds. -/
def mapeoGeometria (g : Str) : List Str :=
  if g = "Punto".data then ["Point".data, "MultiPoint".data]
  else if g = "Línea".data then ["LineString".data, "MultiLineString".data]
  else if g = "Polígono".data then ["Polygon".data, "MultiPolygon".data]
  else []

/-- A catalog attribute rule: `reglas.get("obligatorio")` (absence of the key
is falsy, so the rule is just a boolean). -/
structure Regla where
  obligatorio : Bool
deriving DecidableEq, Repr

/-- A catalog geographic object (`og`): its IDERA geometry kinds and its
declared attributes in catalog order (a Python dict, so keys are unique). -/
structure OG where
  geometria : List Str
  atributos : List (Str × Regla)
deriving Repr

/-- `pandas.unique`: distinct values in order of first appearance. -/
def pdUnique (l : List Str) : List Str :=
  l.foldl (fun acc x => if x ∈ acc then acc else acc ++ [x]) []

/-- The exceptions `normalizar_geometria` can raise: the mixed-geometry
`ValueError` (line 79), the `IndexError` on an empty table (line 81), and the
kind-not-allowed `ValueError` (lines 95–98). -/
inductive GeomError where
  | mixed (tipos : List Str)
  | indexError
  | notAllowed (tipo : Str) (permitidos : List Str)
deriving DecidableEq, Repr

/-- `tipos_validos` (app.py lines 82–85): concatenation of the GIS kinds of
every IDERA kind of the object. -/
def tiposValidos (og : OG) : List Str :=
  (og.geometria.map mapeoGeometria).flatten

/-- `MultiPoint([g])` applied to each geometry cell (app.py line 89). -/
def wrapMultiPoint : Value → Value
  | .geom (.point p) => .geom (.multiPoint [p])
  | v => v

/-- `MultiLineString([g])` applied to each geometry cell (app.py line 91). -/
def wrapMultiLineString : Value → Value
  | .geom (.lineString cs) => .geom (.multiLineString [cs])
  | v => v

/-- `MultiPolygon([g])` applied to each geometry cell (app.py line 93). -/
def wrapMultiPolygon : Value → Value
  | .geom (.polygon rs) => .geom (.multiPolygon [rs])
  | v => v

/-- `normalizar_geometria(gdf, og)` (app.py lines 76–99), modelled with
explicit state passing: the result is the table state when the function
returns or raises, paired with the raised exception if any.  The in-place
mutation `gdf["geometry"] = …` happens only in the single-to-multi wrapping
branches, after all checks. -/
def normalizar_geometria (gdf : DF) (og : OG) : DF × Option GeomError :=
  let tipos := pdUnique ((getCol gdf geometryName).map cellGeomType)
  if 1 < tipos.length then (gdf, some (.mixed tipos))
  else
    match tipos with
    | [] => (gdf, some .indexError)
    | t :: _ =>
      if t ∈ tiposValidos og then (gdf, none)
      else if t = "Point".data ∧ "MultiPoint".data ∈ tiposValidos og then
        (setCol gdf geometryName ((getCol gdf geometryName).map wrapMultiPoint), none)
      else if t = "LineString".data ∧ "MultiLineString".data ∈ tiposValidos og then
        (setCol gdf geometryName ((getCol gdf geometryName).map wrapMultiLineString), none)
      else if t = "Polygon".data ∧ "MultiPolygon".data ∈ tiposValidos og then
        (setCol gdf geometryName ((getCol gdf geometryName).map wrapMultiPolygon), none)
      else (gdf, some (.notAllowed t og.geometria))

-- ------------------------------
-- Validation (`validar_idera`, app.py lines 115–128)
-- ------------------------------

/-- `f"Falta el campo obligatorio: {campo}"` (app.py line 121). -/
def faltaMsg (campo : Str) : Str :=
  "Falta el campo obligatorio: ".data ++ campo

/-- `f"Campo obligatorio vacío: {campo}"` (app.py line 123). -/
def vacioMsg (campo : Str) : Str :=
  "Campo obligatorio vacío: ".data ++ campo

/-- `"Existen geometrías inválidas"` (app.py line 126). -/
def invalidasMsg : Str :=
  "Existen geometrías inválidas".data

/-- The body of the attribute loop of `validar_idera` (app.py lines 118–123)
for one declared attribute: at most one message. -/
def checkCampo (gdf : DF) (p : Str × Regla) : Option Str :=
  if p.2.obligatorio then
    if p.1 ∈ colNames gdf then
      if (getCol gdf p.1).any isna then some (vacioMsg p.1) else none
    else some (faltaMsg p.1)
  else none

/-- Validity of a cell of the geometry column.  Topological validity of a
geometry (`gdf.is_valid`, computed by the external shapely library) is taken
as a parameter `isValid`. -/
def cellValid (isValid : Geometry → Bool) : Value → Bool
  | .geom g => isValid g
  | _ => true

/-- `validar_idera(gdf, og)` (app.py lines 115–128): one accumulated message
per violated mandatory attribute, then one aggregate message if any geometry
is invalid. -/
def validar_idera (isValid : Geometry → Bool) (gdf : DF) (og : OG) : List Str :=
  let errores := og.atributos.filterMap (checkCampo gdf)
  if (getCol gdf geometryName).all (cellValid isValid) then errores
  else errores ++ [invalidasMsg]

-- ------------------------------
-- Clean table construction (`gdf_limpio`, app.py lines 294–313)
-- ------------------------------

/-- `gdf_limpio = gdf[["geometry"]].copy()` (app.py line 295). -/
def limpioBase (gdf : DF) : DF := [(geometryName, getCol gdf geometryName)]

/-- The loop `for attr_idera, col_origen in mapeo.items(): gdf_limpio[attr_idera]
= gdf[col_origen].apply(reparar_encoding)` (app.py lines 297–298 and again
309–310). -/
def limpioAsignado (gdf : DF) (mapeo : List (Str × Str)) (acc : DF) : DF :=
  mapeo.foldl (fun acc p => setCol acc p.1 ((getCol gdf p.2).map reparar_encoding)) acc

/-- The loop `for attr in atributos_catalogo: if attr not in
gdf_limpio.columns: gdf_limpio[attr] = pd.NA` (app.py lines 304–306): a
broadcast `pd.NA` assignment creates a null column of the table's row
count. -/
def limpioRelleno (gdf : DF) (atributosCatalogo : List Str) (acc : DF) : DF :=
  atributosCatalogo.foldl
    (fun acc attr =>
      if attr ∈ colNames acc then acc
      else setCol acc attr (List.replicate (nRows gdf) Value.null)) acc

/-- The construction of `gdf_limpio` (app.py lines 294–313) from the source
table, the confirmed field mapping (attribute → source column, in mapping
order) and the catalog's declared attribute list:
start from the geometry column alone, assign every mapped attribute the
encoding-repaired source values, create a null column for every catalog
attribute still absent, re-assign the mapped attributes, and finally
re-index to the catalog attribute order followed by geometry
(`gdf_limpio[atributos_catalogo + ["geometry"]]`, line 313). -/
def buildLimpio (gdf : DF) (mapeo : List (Str × Str)) (atributosCatalogo : List Str) : DF :=
  let g1 := limpioAsignado gdf mapeo (limpioBase gdf)
  let g2 := limpioRelleno gdf atributosCatalogo g1
  let g3 := limpioAsignado gdf mapeo g2
  (atributosCatalogo ++ [geometryName]).map (fun a => (a, getCol g3 a))

-- ==============================
-- Lemmas about the truncator
-- ==============================

theorem strNat_length_le (n k : Nat) (hk : 0 < k) (h : n < 10 ^ k) :
    (strNat n).length ≤ k :=
  Nat.toDigitsCore_length 10 (by norm_num) (n + 1) n k h hk

theorem lookupCount_some_mem {u : List (Str × Nat)} {k : Str} {n : Nat}
    (h : lookupCount u k = some n) : ∃ p ∈ u, p.2 = n := by
  induction u with
  | nil => simp [lookupCount] at h
  | cons q t ih =>
    obtain ⟨qk, qn⟩ := q
    simp only [lookupCount] at h
    split at h
    · exact ⟨(qk, qn), List.mem_cons_self _ _, by injection h⟩
    · obtain ⟨p, hp, hv⟩ := ih h
      exact ⟨p, List.mem_cons_of_mem _ hp, hv⟩

theorem truncarAux_length (cols : List Str) (u : List (Str × Nat)) :
    (truncarAux cols u).length = cols.length := by
  induction cols generalizing u with
  | nil => rfl
  | cons c rest ih =>
    cases hl : lookupCount u (c.take 10) <;> simp [truncarAux, hl, ih]

theorem truncarAux_rel (cols : List Str) (u : List (Str × Nat)) :
    List.Forall₂ (fun c out => ∃ suf : Str,
        out = pySlice (c.take 10) (10 - (suf.length : Int)) ++ suf)
      cols (truncarAux cols u) := by
  induction cols generalizing u with
  | nil => simp [truncarAux]
  | cons c rest ih =>
    cases hl : lookupCount u (c.take 10) with
    | none =>
      simp only [truncarAux, hl]
      refine List.Forall₂.cons ⟨[], ?_⟩ (ih _)
      simp [pySlice, List.take_take]
    | some n =>
      simp only [truncarAux, hl]
      exact List.Forall₂.cons ⟨strNat (n + 1), rfl⟩ (ih _)

theorem truncarAux_short : ∀ (cols : List Str) (u : List (Str × Nat)) (B : Nat),
    (∀ p ∈ u, p.2 ≤ B) → B + cols.length < 10000000000 →
    ∀ out ∈ truncarAux cols u, out.length ≤ 10 := by
  intro cols
  induction cols with
  | nil => intro u B _ _; simp [truncarAux]
  | cons c rest ih =>
    intro u B hu hB
    cases hl : lookupCount u (c.take 10) with
    | none =>
      simp only [truncarAux, hl]
      intro out hout
      rcases List.mem_cons.mp hout with rfl | hout
      · simp only [List.length_take]
        exact Nat.min_le_left 10 c.length
      · refine ih ((c.take 10, 1) :: u) (B + 1) ?_ ?_ out hout
        · intro p hp
          rcases List.mem_cons.mp hp with rfl | hp
          · omega
          · exact Nat.le_succ_of_le (hu p hp)
        · simp only [List.length_cons] at hB; omega
    | some n =>
      simp only [truncarAux, hl]
      intro out hout
      obtain ⟨p, hpu, hpn⟩ := lookupCount_some_mem hl
      have hn : n ≤ B := hpn ▸ hu p hpu
      have hsuf : (strNat (n + 1)).length ≤ 10 := by
        refine strNat_length_le _ 10 (by norm_num) ?_
        have : (10 : Nat) ^ 10 = 10000000000 := by norm_num
        rw [this]
        simp only [List.length_cons] at hB
        omega
      rcases List.mem_cons.mp hout with rfl | hout
      · have hnonneg : 0 ≤ (10 : Int) - ((strNat (n + 1)).length : Int) := by omega
        rw [List.length_append, pySlice, if_pos hnonneg, List.length_take]
        have ht : ((10 : Int) - ((strNat (n + 1)).length : Int)).toNat =
            10 - (strNat (n + 1)).length := by omega
        rw [ht]
        have := Nat.min_le_left (10 - (strNat (n + 1)).length)
          (List.take 10 c).length
        omega
      · refine ih (bump u (c.take 10)) (B + 1) ?_ ?_ out hout
        · intro q hq
          obtain ⟨q₀, hq₀, rfl⟩ := List.mem_map.mp hq
          have := hu q₀ hq₀
          by_cases hkey : q₀.1 = c.take 10 <;> simp [hkey] <;> omega
        · simp only [List.length_cons] at hB; omega

theorem truncarAux_id : ∀ (cols : List Str) (u : List (Str × Nat)),
    (∀ c ∈ cols, c.length ≤ 10) → cols.Nodup →
    (∀ c ∈ cols, lookupCount u (c.take 10) = none) →
    truncarAux cols u = cols := by
  intro cols
  induction cols with
  | nil => intro u _ _ _; rfl
  | cons c rest ih =>
    intro u hshort hnd hfresh
    have hc : c.take 10 = c := List.take_of_length_le (hshort c (by simp))
    have hl := hfresh c (by simp)
    rw [hc] at hl
    simp only [truncarAux, hc, hl, List.cons.injEq, true_and]
    refine ih ((c, 1) :: u) (fun c₂ h₂ => hshort c₂ (List.mem_cons_of_mem _ h₂))
      (List.Nodup.of_cons hnd) ?_
    intro c₂ h₂
    have hc₂ : c₂.take 10 = c₂ :=
      List.take_of_length_le (hshort c₂ (List.mem_cons_of_mem _ h₂))
    have hne : c ≠ c₂ := fun h => (List.nodup_cons.mp hnd).1 (h ▸ h₂)
    rw [hc₂]
    simp only [lookupCount, if_neg hne]
    have := hfresh c₂ (List.mem_cons_of_mem _ h₂)
    rwa [hc₂] at this

/-- C1 (counterexample): the truncator does not always return pairwise
distinct names: on the input `["a", "a", "a2"]` the suffixed second output
`"a2"` collides with the third input name. -/
theorem truncar_unico_not_unique_cex :
    truncar_unico [['a'], ['a'], ['a', '2']] = [['a'], ['a', '2'], ['a', '2']] ∧
    ¬ (truncar_unico [['a'], ['a'], ['a', '2']]).Nodup := by
  constructor <;> decide

/-- C1 (amended): the truncator returns a sequence of the same length in
which the i-th output is derived from the i-th input (a possibly trimmed
10-character candidate followed by a numeric suffix); every output name is at
most 10 characters long for any input of fewer than `10 ^ 10` names; and on
an input whose names are already pairwise distinct and each at most 10
characters the output equals the input.  (Pairwise distinctness of the
outputs does not hold in general.) -/
theorem truncar_unico_spec (cols : List Str) (hlen : cols.length < 10 ^ 10) :
    (truncar_unico cols).length = cols.length ∧
    List.Forall₂ (fun c out => ∃ suf : Str,
        out = pySlice (c.take 10) (10 - (suf.length : Int)) ++ suf)
      cols (truncar_unico cols) ∧
    (∀ out ∈ truncar_unico cols, out.length ≤ 10) ∧
    ((∀ c ∈ cols, c.length ≤ 10) → cols.Nodup → truncar_unico cols = cols) := by
  refine ⟨truncarAux_length cols [], truncarAux_rel cols [], ?_, ?_⟩
  · refine truncarAux_short cols [] 0 (by simp) ?_
    have : (10 : Nat) ^ 10 = 10000000000 := by norm_num
    omega
  · intro hs hn
    exact truncarAux_id cols [] hs hn (fun c _ => rfl)

/-- Witness for C1 at the concrete input `["nombre", "tipo"]`. -/
theorem truncar_unico_spec_witness :
    (truncar_unico ["nombre".data, "tipo".data]).length =
      ([ "nombre".data, "tipo".data ] : List Str).length ∧
    List.Forall₂ (fun c out => ∃ suf : Str,
        out = pySlice (c.take 10) (10 - (suf.length : Int)) ++ suf)
      ["nombre".data, "tipo".data] (truncar_unico ["nombre".data, "tipo".data]) ∧
    (∀ out ∈ truncar_unico ["nombre".data, "tipo".data], out.length ≤ 10) ∧
    ((∀ c ∈ (["nombre".data, "tipo".data] : List Str), c.length ≤ 10) →
      (["nombre".data, "tipo".data] : List Str).Nodup →
      truncar_unico ["nombre".data, "tipo".data] = ["nombre".data, "tipo".data]) :=
  truncar_unico_spec ["nombre".data, "tipo".data] (by norm_num)

/-- C2 (counterexample): on the input pair `"precipitacion_promedio"`,
`"precipitacion_maxima"` the outputs are `"precipitac"` and `"precipita2"`,
not `"precipita1"` and `"precipita2"` as claimed: the first occurrence keeps
the untrimmed candidate and the suffix of the second occurrence is `2`. -/
theorem truncar_unico_pair_cex :
    truncar_unico ["precipitacion_promedio".data, "precipitacion_maxima".data] =
      ["precipitac".data, "precipita2".data] ∧
    truncar_unico ["precipitacion_promedio".data, "precipitacion_maxima".data] ≠
      ["precipita1".data, "precipita2".data] := by
  constructor <;> decide

/-- C2 (amended): when two input column names share the same 10-character
candidate, the first occurrence keeps the candidate unchanged and the second
occurrence gets the numeric suffix `2` (the occurrence count after bumping)
appended to the trimmed candidate, in the original input order. -/
theorem truncar_unico_pair_collision (c₁ c₂ : Str) (h : c₂.take 10 = c₁.take 10) :
    truncar_unico [c₁, c₂] = [c₁.take 10, c₁.take 9 ++ ['2']] := by
  have h2 : strNat 2 = ['2'] := rfl
  simp [truncar_unico, truncarAux, lookupCount, h, h2, pySlice, List.take_take]

/-- Witness for C2 at the spec's own example pair. -/
theorem truncar_unico_pair_collision_witness :
    truncar_unico ["precipitacion_promedio".data, "precipitacion_maxima".data] =
      ["precipitacion_promedio".data.take 10,
        "precipitacion_promedio".data.take 9 ++ ['2']] :=
  truncar_unico_pair_collision "precipitacion_promedio".data
    "precipitacion_maxima".data (by decide)

-- ==============================
-- Encoding repair: C8, C10
-- ==============================

/-- C8: the encoding repair never propagates a failure: whenever the
Latin-1/UTF-8 round trip of a string fails (the Latin-1 encode raises, or the
UTF-8 decode of the encoded bytes raises), the original string is returned
unchanged.  (The embedding is a total function, so the absence of exceptions
is by construction; the `try`/`except` of the source is modelled by the
`Option` results of `encodeLatin1` and `decodeUtf8`.) -/
theorem reparar_encoding_failure_id (s : Str)
    (h : (encodeLatin1 s).bind decodeUtf8 = none) :
    reparar_encoding (Value.str s) = Value.str s := by
  cases he : encodeLatin1 s with
  | none => simp [reparar_encoding, he]
  | some bs =>
    cases hd : decodeUtf8 bs with
    | none => simp [reparar_encoding, he, hd]
    | some t =>
      rw [he, Option.some_bind, hd] at h
      exact absurd h (by simp)

/-- Witness for C8 at the string `"é"`: its Latin-1 encoding is the single
byte `0xE9`, which is not valid UTF-8. -/
theorem reparar_encoding_failure_id_witness :
    (encodeLatin1 "é".data).bind decodeUtf8 = none ∧
    reparar_encoding (Value.str "é".data) = Value.str "é".data :=
  ⟨by decide, reparar_encoding_failure_id "é".data (by decide)⟩

/-- C10: the encoding repair is the identity on every non-string value:
integers, booleans, nulls and geometries are returned exactly as given. -/
theorem reparar_encoding_nonstr_id (v : Value) (h : ∀ s, v ≠ Value.str s) :
    reparar_encoding v = v := by
  cases v with
  | str s => exact absurd rfl (h s)
  | int n => rfl
  | bool b => rfl
  | null => rfl
  | geom g => rfl

/-- Witness for C10 at the integer value `3`. -/
theorem reparar_encoding_nonstr_id_witness :
    reparar_encoding (Value.int 3) = Value.int 3 :=
  reparar_encoding_nonstr_id (Value.int 3) (fun _ h => Value.noConfusion h)

-- ==============================
-- Geometry normalization: C3, C4
-- ==============================

theorem mem_pdUnique {x : Str} {l : List Str} : x ∈ pdUnique l ↔ x ∈ l := by
  have key : ∀ (l : List Str) (acc : List Str),
      x ∈ l.foldl (fun acc y => if y ∈ acc then acc else acc ++ [y]) acc ↔
        x ∈ acc ∨ x ∈ l := by
    intro l
    induction l with
    | nil => simp
    | cons y t ih =>
      intro acc
      rw [List.foldl_cons, ih]
      by_cases hy : y ∈ acc
      · rw [if_pos hy]
        simp only [List.mem_cons]
        constructor
        · rintro (h | h)
          · exact Or.inl h
          · exact Or.inr (Or.inr h)
        · rintro (h | rfl | h)
          · exact Or.inl h
          · exact Or.inl hy
          · exact Or.inr h
      · rw [if_neg hy]
        simp only [List.mem_append, List.mem_cons, List.not_mem_nil, or_false]
        constructor
        · rintro ((h | rfl) | h)
          · exact Or.inl h
          · exact Or.inr (Or.inl rfl)
          · exact Or.inr (Or.inr h)
        · rintro (h | rfl | h)
          · exact Or.inl (Or.inl h)
          · exact Or.inl (Or.inr rfl)
          · exact Or.inr h
  simpa using key l []

/-- C3: on a table containing at least two distinct geometry kinds,
`normalizar_geometria` raises the mixed-geometry `ValueError` before touching
anything: the returned table state is exactly the input table. -/
theorem normalizar_geometria_mixed (gdf : DF) (og : OG) (v₁ v₂ : Value)
    (h₁ : v₁ ∈ getCol gdf geometryName) (h₂ : v₂ ∈ getCol gdf geometryName)
    (hne : cellGeomType v₁ ≠ cellGeomType v₂) :
    normalizar_geometria gdf og =
      (gdf, some (GeomError.mixed
        (pdUnique ((getCol gdf geometryName).map cellGeomType)))) := by
  have m₁ : cellGeomType v₁ ∈ pdUnique ((getCol gdf geometryName).map cellGeomType) :=
    mem_pdUnique.mpr (List.mem_map_of_mem _ h₁)
  have m₂ : cellGeomType v₂ ∈ pdUnique ((getCol gdf geometryName).map cellGeomType) :=
    mem_pdUnique.mpr (List.mem_map_of_mem _ h₂)
  have hlen : 1 < (pdUnique ((getCol gdf geometryName).map cellGeomType)).length := by
    rcases hu : pdUnique ((getCol gdf geometryName).map cellGeomType) with _ | ⟨a, _ | ⟨b, t⟩⟩
    · rw [hu] at m₁; exact absurd m₁ (List.not_mem_nil _)
    · rw [hu] at m₁ m₂
      rcases List.mem_singleton.mp m₁ with rfl
      exact absurd (List.mem_singleton.mp m₂).symm hne
    · simp
  unfold normalizar_geometria
  rw [if_pos hlen]

/-- Witness for C3 at a two-record table holding one point and one polygon. -/
theorem normalizar_geometria_mixed_witness :
    normalizar_geometria
        [("geometry".data,
          [Value.geom (Geometry.point ⟨0, 0⟩), Value.geom (Geometry.polygon [])])]
        ⟨["Punto".data], []⟩ =
      ([("geometry".data,
          [Value.geom (Geometry.point ⟨0, 0⟩), Value.geom (Geometry.polygon [])])],
        some (GeomError.mixed
          (pdUnique ((getCol
            [("geometry".data,
              [Value.geom (Geometry.point ⟨0, 0⟩), Value.geom (Geometry.polygon [])])]
            geometryName).map cellGeomType)))) :=
  normalizar_geometria_mixed _ _
    (Value.geom (Geometry.point ⟨0, 0⟩)) (Value.geom (Geometry.polygon []))
    (by decide) (by decide) (by decide)

/-- A single-record table of one `Point` geometry. -/
def ptGdf : DF := [("geometry".data, [Value.geom (Geometry.point ⟨0, 0⟩)])]

/-- A catalog object admitting the IDERA kind `"Punto"`. -/
def ogPunto : OG := ⟨["Punto".data], [("nombre".data, ⟨true⟩)]⟩

/-- C4 (code bug): the promotion of single-part geometries to their
multi-part counterparts never happens.  First conjunct: on a table of `Point`
geometries and a catalog object admitting `"Punto"` (the spec's own example,
which it says exports `MultiPoint`), `normalizar_geometria` is a no-op — the
geometry stays `Point`.  Second conjunct: the root cause — for every catalog
object, the expanded allowed kinds contain a multi-part kind if and only if
they contain its single-part counterpart, so the wrapping branches guarded by
`tipo_actual not in tipos_validos` (app.py lines 88–93) are unreachable. -/
theorem normalizar_geometria_never_promotes :
    normalizar_geometria ptGdf ogPunto = (ptGdf, none) ∧
    ∀ og : OG,
      ("MultiPoint".data ∈ tiposValidos og ↔ "Point".data ∈ tiposValidos og) ∧
      ("MultiLineString".data ∈ tiposValidos og ↔
        "LineString".data ∈ tiposValidos og) ∧
      ("MultiPolygon".data ∈ tiposValidos og ↔ "Polygon".data ∈ tiposValidos og) := by
  constructor
  · decide
  · intro og
    unfold tiposValidos
    induction og.geometria with
    | nil => simp
    | cons g t ih =>
      simp only [List.map_cons, List.flatten_cons, List.mem_append]
      have hg : ("MultiPoint".data ∈ mapeoGeometria g ↔
            "Point".data ∈ mapeoGeometria g) ∧
          ("MultiLineString".data ∈ mapeoGeometria g ↔
            "LineString".data ∈ mapeoGeometria g) ∧
          ("MultiPolygon".data ∈ mapeoGeometria g ↔
            "Polygon".data ∈ mapeoGeometria g) := by
        unfold mapeoGeometria
        split_ifs <;> refine ⟨?_, ?_, ?_⟩ <;> decide
      exact ⟨or_congr hg.1 ih.1, or_congr hg.2.1 ih.2.1, or_congr hg.2.2 ih.2.2⟩

-- ==============================
-- Validation: C6, C7, C9
-- ==============================

theorem faltaMsg_inj {a b : Str} (h : faltaMsg a = faltaMsg b) : a = b :=
  List.append_cancel_left h

theorem vacioMsg_inj {a b : Str} (h : vacioMsg a = vacioMsg b) : a = b :=
  List.append_cancel_left h

theorem faltaMsg_ne_vacioMsg (a b : Str) : faltaMsg a ≠ vacioMsg b := by
  intro h
  have h1 : (faltaMsg a).headI = 'F' := rfl
  have h2 : (vacioMsg b).headI = 'C' := rfl
  rw [h, h2] at h1
  exact absurd h1 (by decide)

theorem faltaMsg_ne_invalidasMsg (a : Str) : faltaMsg a ≠ invalidasMsg := by
  intro h
  have h1 : (faltaMsg a).headI = 'F' := rfl
  rw [h] at h1
  exact absurd h1 (by decide)

theorem vacioMsg_ne_invalidasMsg (a : Str) : vacioMsg a ≠ invalidasMsg := by
  intro h
  have h1 : (vacioMsg a).headI = 'C' := rfl
  rw [h] at h1
  exact absurd h1 (by decide)

theorem checkCampo_eq_some {gdf : DF} {p : Str × Regla} {m : Str}
    (h : checkCampo gdf p = some m) : m = faltaMsg p.1 ∨ m = vacioMsg p.1 := by
  unfold checkCampo at h
  split at h
  · split at h
    · split at h
      · exact Or.inr (by injection h with h; exact h.symm)
      · exact absurd h (by simp)
    · exact Or.inl (by injection h with h; exact h.symm)
  · exact absurd h (by simp)

/-- C6: on a table in which every mandatory catalog attribute is present as a
column without null values and all geometries are valid, the validator
returns the empty error list. -/
theorem validar_idera_ok (isValid : Geometry → Bool) (gdf : DF) (og : OG)
    (hm : ∀ p ∈ og.atributos, p.2.obligatorio = true →
      p.1 ∈ colNames gdf ∧ (getCol gdf p.1).any isna = false)
    (hg : (getCol gdf geometryName).all (cellValid isValid) = true) :
    validar_idera isValid gdf og = [] := by
  simp only [validar_idera, hg, if_true]
  rw [List.filterMap_eq_nil_iff]
  intro p hp
  unfold checkCampo
  cases hob : p.2.obligatorio with
  | false => simp
  | true =>
    obtain ⟨hin, hna⟩ := hm p hp hob
    simp [hin, hna]

/-- Witness for C6: a one-record table with a valid point and a non-null
mandatory `nombre` column. -/
theorem validar_idera_ok_witness :
    validar_idera (fun _ => true)
      [("geometry".data, [Value.geom (Geometry.point ⟨0, 0⟩)]),
        ("nombre".data, [Value.str ['x']])] ogPunto = [] :=
  validar_idera_ok (fun _ => true) _ ogPunto (by decide) (by decide)

theorem filterMap_single_key {β : Type} (f : Str × Regla → Option β) :
    ∀ (l : List (Str × Regla)) (p₀ : Str × Regla) (m : β),
    p₀ ∈ l → (l.map Prod.fst).Nodup →
    (∀ p ∈ l, p.1 ≠ p₀.1 → f p = none) →
    f p₀ = some m → l.filterMap f = [m] := by
  intro l
  induction l with
  | nil =>
    intro p₀ m hmem _ _ _
    exact absurd hmem (List.not_mem_nil _)
  | cons q t ih =>
    intro p₀ m hmem hnd hothers hp₀
    rw [List.map_cons, List.nodup_cons] at hnd
    by_cases hq : q.1 = p₀.1
    · have hqp : q = p₀ := by
        rcases List.mem_cons.mp hmem with h | h
        · exact h.symm
        · exact absurd (by rw [hq]; exact List.mem_map_of_mem Prod.fst h) hnd.1
      rw [List.filterMap_cons, hqp, hp₀]
      have ht : t.filterMap f = [] := by
        rw [List.filterMap_eq_nil_iff]
        intro p hp
        refine hothers p (List.mem_cons_of_mem _ hp) ?_
        intro hpk
        refine hnd.1 ?_
        rw [hq, ← hpk]
        exact List.mem_map_of_mem Prod.fst hp
      rw [ht]
    · have hmem' : p₀ ∈ t := by
        rcases List.mem_cons.mp hmem with h | h
        · exact absurd (h ▸ rfl) hq
        · exact h
      rw [List.filterMap_cons, hothers q (List.mem_cons_self _ _) hq]
      exact ih p₀ m hmem' hnd.2
        (fun p hp => hothers p (List.mem_cons_of_mem _ hp)) hp₀

/-- C7: on a table with all geometries valid in which exactly one mandatory
attribute's column is absent and every other mandatory attribute is present
and non-null, the validator returns exactly the one missing-mandatory-field
message naming that attribute: violations are accumulated per attribute, not
short-circuited. -/
theorem validar_idera_missing_one (isValid : Geometry → Bool) (gdf : DF)
    (og : OG) (campo₀ : Str) (r₀ : Regla)
    (hmem : (campo₀, r₀) ∈ og.atributos) (hob : r₀.obligatorio = true)
    (habs : campo₀ ∉ colNames gdf)
    (hnd : (og.atributos.map Prod.fst).Nodup)
    (hothers : ∀ p ∈ og.atributos, p.1 ≠ campo₀ → p.2.obligatorio = true →
      p.1 ∈ colNames gdf ∧ (getCol gdf p.1).any isna = false)
    (hg : (getCol gdf geometryName).all (cellValid isValid) = true) :
    validar_idera isValid gdf og = [faltaMsg campo₀] := by
  simp only [validar_idera, hg, if_true]
  refine filterMap_single_key (checkCampo gdf) og.atributos (campo₀, r₀)
    (faltaMsg campo₀) hmem hnd ?_ ?_
  · intro p hp hne
    unfold checkCampo
    cases hob₂ : p.2.obligatorio with
    | false => simp
    | true =>
      obtain ⟨hin, hna⟩ := hothers p hp hne hob₂
      simp [hin, hna]
  · simp [checkCampo, hob, habs]

/-- A catalog object with a mandatory `nombre` and an optional `categoria`. -/
def ogNombreCat : OG :=
  ⟨["Punto".data], [("nombre".data, ⟨true⟩), ("categoria".data, ⟨false⟩)]⟩

/-- Witness for C7: a table that carries only the geometry column, validated
against a catalog object whose sole mandatory attribute is `nombre`. -/
theorem validar_idera_missing_one_witness :
    validar_idera (fun _ => true) ptGdf ogNombreCat =
      [faltaMsg "nombre".data] :=
  validar_idera_missing_one (fun _ => true) ptGdf ogNombreCat
    "nombre".data ⟨true⟩ (by decide) rfl (by decide) (by decide)
    (by decide) (by decide)

theorem countP_checkCampo_zero (gdf : DF) (campo : Str) :
    ∀ l : List (Str × Regla), (∀ p ∈ l, p.1 ≠ campo) →
    (l.filterMap (checkCampo gdf)).countP
      (fun m => m == faltaMsg campo || m == vacioMsg campo) = 0 := by
  intro l
  induction l with
  | nil => intro _; rfl
  | cons q t ih =>
    intro h
    rw [List.filterMap_cons]
    cases hc : checkCampo gdf q with
    | none => exact ih (fun p hp => h p (List.mem_cons_of_mem _ hp))
    | some m =>
      rw [List.countP_cons]
      have hq : q.1 ≠ campo := h q (List.mem_cons_self _ _)
      have hfalse : (m == faltaMsg campo || m == vacioMsg campo) = false := by
        rw [Bool.or_eq_false_iff]
        rcases checkCampo_eq_some hc with rfl | rfl
        · constructor <;> rw [beq_eq_false_iff_ne]
          · exact fun hh => hq (faltaMsg_inj hh)
          · exact faltaMsg_ne_vacioMsg _ _
        · constructor <;> rw [beq_eq_false_iff_ne]
          · exact fun hh => faltaMsg_ne_vacioMsg campo q.1 hh.symm
          · exact fun hh => hq (vacioMsg_inj hh)
      rw [hfalse, if_neg Bool.false_ne_true, Nat.add_zero]
      exact ih (fun p hp => h p (List.mem_cons_of_mem _ hp))

theorem countP_checkCampo_le_one (gdf : DF) (campo : Str) :
    ∀ l : List (Str × Regla), (l.map Prod.fst).Nodup →
    (l.filterMap (checkCampo gdf)).countP
      (fun m => m == faltaMsg campo || m == vacioMsg campo) ≤ 1 := by
  intro l
  induction l with
  | nil => intro _; simp
  | cons q t ih =>
    intro hnd
    rw [List.map_cons, List.nodup_cons] at hnd
    rw [List.filterMap_cons]
    cases hc : checkCampo gdf q with
    | none => exact ih hnd.2
    | some m =>
      rw [List.countP_cons]
      by_cases hq : q.1 = campo
      · have h0 : (t.filterMap (checkCampo gdf)).countP
            (fun m => m == faltaMsg campo || m == vacioMsg campo) = 0 := by
          refine countP_checkCampo_zero gdf campo t ?_
          intro p hp hpk
          refine hnd.1 ?_
          rw [hq, ← hpk]
          exact List.mem_map_of_mem Prod.fst hp
        rw [h0]
        split <;> omega
      · have hfalse : (m == faltaMsg campo || m == vacioMsg campo) = false := by
          rw [Bool.or_eq_false_iff]
          rcases checkCampo_eq_some hc with rfl | rfl
          · constructor <;> rw [beq_eq_false_iff_ne]
            · exact fun hh => hq (faltaMsg_inj hh)
            · exact faltaMsg_ne_vacioMsg _ _
          · constructor <;> rw [beq_eq_false_iff_ne]
            · exact fun hh => faltaMsg_ne_vacioMsg campo q.1 hh.symm
            · exact fun hh => hq (vacioMsg_inj hh)
        rw [hfalse, if_neg Bool.false_ne_true, Nat.add_zero]
        exact ih hnd.2

/-- C9: for any attribute, the validator emits at most one message about it
per run: an absent mandatory column is reported as missing only, a present
one as empty at most, and the two checks are mutually exclusive
(`elif` in app.py lines 120–123). -/
theorem validar_idera_at_most_one (isValid : Geometry → Bool) (gdf : DF)
    (og : OG) (campo : Str) (hnd : (og.atributos.map Prod.fst).Nodup) :
    (validar_idera isValid gdf og).countP
      (fun m => m == faltaMsg campo || m == vacioMsg campo) ≤ 1 := by
  unfold validar_idera
  split
  · exact countP_checkCampo_le_one gdf campo og.atributos hnd
  · rw [List.countP_append]
    have h1 : ([invalidasMsg] : List Str).countP
        (fun m => m == faltaMsg campo || m == vacioMsg campo) = 0 := by
      have hfalse : (invalidasMsg == faltaMsg campo ||
          invalidasMsg == vacioMsg campo) = false := by
        rw [Bool.or_eq_false_iff]
        constructor <;> rw [beq_eq_false_iff_ne]
        · exact (faltaMsg_ne_invalidasMsg campo).symm
        · exact (vacioMsg_ne_invalidasMsg campo).symm
      simp [List.countP_cons, hfalse]
    rw [h1]
    have := countP_checkCampo_le_one gdf campo og.atributos hnd
    omega

/-- Witness for C9 at a table whose mandatory `nombre` column is absent. -/
theorem validar_idera_at_most_one_witness :
    (validar_idera (fun _ => true) ptGdf ogNombreCat).countP
      (fun m => m == faltaMsg "nombre".data || m == vacioMsg "nombre".data) ≤ 1 :=
  validar_idera_at_most_one (fun _ => true) ptGdf ogNombreCat
    "nombre".data (by decide)

-- ==============================
-- Column lookup and assignment lemmas, clean table: C5
-- ==============================

theorem getCol_cons (k : Str) (vs : List Value) (t : DF) (n : Str) :
    getCol ((k, vs) :: t) n = if k = n then vs else getCol t n := rfl

theorem colNames_cons (k : Str) (vs : List Value) (t : DF) :
    colNames ((k, vs) :: t) = k :: colNames t := rfl

theorem getCol_map_replace_self : ∀ (df : DF) (n : Str) (vs : List Value),
    n ∈ colNames df →
    getCol (df.map (fun p => if p.1 = n then (p.1, vs) else p)) n = vs := by
  intro df n vs
  induction df with
  | nil => intro h; exact absurd h (List.not_mem_nil _)
  | cons q t ih =>
    intro h
    obtain ⟨qk, qv⟩ := q
    by_cases hq : qk = n
    · simp [getCol_cons, hq]
    · have h₂ : n ∈ colNames t := by
        rw [colNames_cons, List.mem_cons] at h
        rcases h with h | h
        · exact absurd h.symm hq
        · exact h
      simp [getCol_cons, hq, ih h₂]

theorem getCol_append_self : ∀ (df : DF) (n : Str) (vs : List Value),
    n ∉ colNames df → getCol (df ++ [(n, vs)]) n = vs := by
  intro df n vs
  induction df with
  | nil => intro _; simp [getCol_cons]
  | cons q t ih =>
    intro h
    obtain ⟨qk, qv⟩ := q
    have hq : qk ≠ n := by
      intro e
      exact h (by rw [colNames_cons, e]; exact List.mem_cons_self _ _)
    rw [List.cons_append, getCol_cons, if_neg hq]
    refine ih ?_
    intro hm
    exact h (by rw [colNames_cons]; exact List.mem_cons_of_mem _ hm)

theorem getCol_setCol_self (df : DF) (n : Str) (vs : List Value) :
    getCol (setCol df n vs) n = vs := by
  unfold setCol
  split
  · exact getCol_map_replace_self df n vs (by assumption)
  · exact getCol_append_self df n vs (by assumption)

theorem getCol_map_replace_ne : ∀ (df : DF) (n : Str) (vs : List Value) (m : Str),
    m ≠ n →
    getCol (df.map (fun p => if p.1 = n then (p.1, vs) else p)) m = getCol df m := by
  intro df n vs m hm
  induction df with
  | nil => rfl
  | cons q t ih =>
    obtain ⟨qk, qv⟩ := q
    have hnm : n ≠ m := fun e => hm e.symm
    by_cases hq : qk = n
    · have hqm : qk ≠ m := fun e => hm (by rw [← e, hq])
      simp [getCol_cons, hq, hqm, hnm, ih]
    · by_cases hqm : qk = m <;> simp [getCol_cons, hq, hqm, hm, ih]

theorem getCol_append_ne : ∀ (df : DF) (n : Str) (vs : List Value) (m : Str),
    m ≠ n → getCol (df ++ [(n, vs)]) m = getCol df m := by
  intro df n vs m hm
  induction df with
  | nil =>
    rw [List.nil_append, getCol_cons, if_neg (fun e => hm e.symm)]
  | cons q t ih =>
    obtain ⟨qk, qv⟩ := q
    by_cases hq : qk = m <;> simp [getCol_cons, hq, ih]

theorem getCol_setCol_ne (df : DF) (n : Str) (vs : List Value) (m : Str)
    (h : m ≠ n) : getCol (setCol df n vs) m = getCol df m := by
  unfold setCol
  split
  · exact getCol_map_replace_ne df n vs m h
  · exact getCol_append_ne df n vs m h

theorem colNames_setCol (df : DF) (n : Str) (vs : List Value) :
    colNames (setCol df n vs) =
      if n ∈ colNames df then colNames df else colNames df ++ [n] := by
  unfold setCol
  split
  · unfold colNames
    rw [List.map_map]
    refine List.map_congr_left ?_
    intro p _
    by_cases hp : p.1 = n <;> simp [Function.comp, hp]
  · simp [colNames]

theorem mem_colNames_setCol {df : DF} {n : Str} {vs : List Value} {x : Str} :
    x ∈ colNames (setCol df n vs) ↔ x ∈ colNames df ∨ x = n := by
  rw [colNames_setCol]
  split
  · constructor
    · exact Or.inl
    · rintro (h | rfl)
      · exact h
      · assumption
  · simp [List.mem_append]

theorem getCol_limpioAsignado_not_mem (gdf : DF) :
    ∀ (mapeo : List (Str × Str)) (acc : DF) (x : Str),
    x ∉ mapeo.map Prod.fst →
    getCol (limpioAsignado gdf mapeo acc) x = getCol acc x := by
  intro mapeo
  induction mapeo with
  | nil => intro acc x _; rfl
  | cons p t ih =>
    intro acc x hx
    rw [List.map_cons, List.mem_cons] at hx
    push_neg at hx
    rw [limpioAsignado, List.foldl_cons]
    have := ih (setCol acc p.1 ((getCol gdf p.2).map reparar_encoding)) x hx.2
    rw [limpioAsignado] at this
    rw [this, getCol_setCol_ne _ _ _ _ hx.1]

theorem getCol_limpioAsignado_mem (gdf : DF) :
    ∀ (mapeo : List (Str × Str)) (acc : DF) (a s : Str),
    (mapeo.map Prod.fst).Nodup → (a, s) ∈ mapeo →
    getCol (limpioAsignado gdf mapeo acc) a = (getCol gdf s).map reparar_encoding := by
  intro mapeo
  induction mapeo with
  | nil => intro acc a s _ hm; exact absurd hm (List.not_mem_nil _)
  | cons p t ih =>
    intro acc a s hnd hm
    rw [List.map_cons, List.nodup_cons] at hnd
    rw [limpioAsignado, List.foldl_cons]
    by_cases hp : p.1 = a
    · have hps : p = (a, s) := by
        rcases List.mem_cons.mp hm with h | h
        · exact h.symm
        · exact absurd (by rw [hp]; exact List.mem_map_of_mem Prod.fst h) hnd.1
      have hnot : a ∉ t.map Prod.fst := hp ▸ hnd.1
      have hrw := getCol_limpioAsignado_not_mem gdf t
        (setCol acc p.1 ((getCol gdf p.2).map reparar_encoding)) a hnot
      rw [limpioAsignado] at hrw
      rw [hrw, hps, getCol_setCol_self]
    · have hm₂ : (a, s) ∈ t := by
        rcases List.mem_cons.mp hm with h | h
        · exact absurd (congrArg Prod.fst h.symm) hp
        · exact h
      have := ih (setCol acc p.1 ((getCol gdf p.2).map reparar_encoding)) a s hnd.2 hm₂
      rw [limpioAsignado] at this
      exact this

theorem getCol_limpioRelleno_not_mem (gdf : DF) :
    ∀ (attrs : List Str) (acc : DF) (x : Str), x ∉ attrs →
    getCol (limpioRelleno gdf attrs acc) x = getCol acc x := by
  intro attrs
  induction attrs with
  | nil => intro acc x _; rfl
  | cons a t ih =>
    intro acc x hx
    rw [List.mem_cons] at hx
    push_neg at hx
    rw [limpioRelleno, List.foldl_cons]
    have := ih (if a ∈ colNames acc then acc
      else setCol acc a (List.replicate (nRows gdf) Value.null)) x hx.2
    rw [limpioRelleno] at this
    rw [this]
    split
    · rfl
    · exact getCol_setCol_ne _ _ _ _ hx.1

theorem getCol_limpioRelleno_mem (gdf : DF) :
    ∀ (attrs : List Str) (acc : DF) (x : Str),
    x ∈ attrs → attrs.Nodup → x ∉ colNames acc →
    getCol (limpioRelleno gdf attrs acc) x = List.replicate (nRows gdf) Value.null := by
  intro attrs
  induction attrs with
  | nil => intro acc x hm; exact absurd hm (List.not_mem_nil _)
  | cons a t ih =>
    intro acc x hm hnd hx
    rw [List.nodup_cons] at hnd
    rw [limpioRelleno, List.foldl_cons]
    by_cases hax : a = x
    · subst hax
      rw [if_neg hx]
      have hrw := getCol_limpioRelleno_not_mem gdf t
        (setCol acc a (List.replicate (nRows gdf) Value.null)) a hnd.1
      rw [limpioRelleno] at hrw
      rw [hrw, getCol_setCol_self]
    · have hm₂ : x ∈ t := by
        rcases List.mem_cons.mp hm with h | h
        · exact absurd h.symm hax
        · exact h
      have hx₂ : x ∉ colNames (if a ∈ colNames acc then acc
          else setCol acc a (List.replicate (nRows gdf) Value.null)) := by
        split
        · exact hx
        · intro hmem
          rcases mem_colNames_setCol.mp hmem with h | h
          · exact hx h
          · exact hax h.symm
      have := ih (if a ∈ colNames acc then acc
        else setCol acc a (List.replicate (nRows gdf) Value.null)) x hm₂ hnd.2 hx₂
      rw [limpioRelleno] at this
      exact this

theorem getCol_map_pair (f : Str → List Value) :
    ∀ (names : List Str) (a : Str), a ∈ names →
    getCol (names.map (fun x => (x, f x))) a = f a := by
  intro names
  induction names with
  | nil => intro a hm; exact absurd hm (List.not_mem_nil _)
  | cons b t ih =>
    intro a hm
    rw [List.map_cons, getCol_cons]
    by_cases hb : b = a
    · rw [if_pos hb, hb]
    · rw [if_neg hb]
      refine ih a ?_
      rcases List.mem_cons.mp hm with h | h
      · exact absurd h.symm hb
      · exact h

theorem colNames_map_pair (f : Str → List Value) (names : List Str) :
    colNames (names.map (fun x => (x, f x))) = names := by
  unfold colNames
  rw [List.map_map]
  exact List.map_id _

theorem mem_colNames_limpioAsignado (gdf : DF) :
    ∀ (mapeo : List (Str × Str)) (acc : DF) (x : Str),
    x ∈ colNames (limpioAsignado gdf mapeo acc) →
    x ∈ colNames acc ∨ x ∈ mapeo.map Prod.fst := by
  intro mapeo
  induction mapeo with
  | nil => intro acc x h; exact Or.inl h
  | cons p t ih =>
    intro acc x h
    rw [limpioAsignado, List.foldl_cons] at h
    have h₂ := ih (setCol acc p.1 ((getCol gdf p.2).map reparar_encoding)) x
      (by rw [limpioAsignado]; exact h)
    rcases h₂ with h₂ | h₂
    · rcases mem_colNames_setCol.mp h₂ with h₃ | h₃
      · exact Or.inl h₃
      · exact Or.inr (by rw [List.map_cons, h₃]; exact List.mem_cons_self _ _)
    · exact Or.inr (by rw [List.map_cons]; exact List.mem_cons_of_mem _ h₂)

/-- C5: the clean table built from a confirmed field mapping has exactly the
catalog's declared attributes, in catalog order, followed by the geometry
column; every attribute mapped to a source column holds that column's
encoding-repaired values; every unmapped catalog attribute is a column of
nulls (one per record), present rather than absent; and the geometry column
is the source table's geometry column. -/
theorem buildLimpio_spec (gdf : DF) (mapeo : List (Str × Str))
    (atributos : List Str)
    (hndA : atributos.Nodup)
    (hgeo : geometryName ∉ atributos)
    (hkeys : ∀ p ∈ mapeo, p.1 ∈ atributos)
    (hndM : (mapeo.map Prod.fst).Nodup) :
    colNames (buildLimpio gdf mapeo atributos) = atributos ++ [geometryName] ∧
    (∀ p ∈ mapeo, getCol (buildLimpio gdf mapeo atributos) p.1 =
      (getCol gdf p.2).map reparar_encoding) ∧
    (∀ attr ∈ atributos, attr ∉ mapeo.map Prod.fst →
      getCol (buildLimpio gdf mapeo atributos) attr =
        List.replicate (nRows gdf) Value.null) ∧
    getCol (buildLimpio gdf mapeo atributos) geometryName =
      getCol gdf geometryName := by
  have hB : buildLimpio gdf mapeo atributos =
      (atributos ++ [geometryName]).map (fun a => (a,
        getCol (limpioAsignado gdf mapeo
          (limpioRelleno gdf atributos
            (limpioAsignado gdf mapeo (limpioBase gdf)))) a)) := rfl
  have hGeoKeys : geometryName ∉ mapeo.map Prod.fst := by
    intro h
    obtain ⟨p, hp, he⟩ := List.mem_map.mp h
    exact hgeo (he ▸ hkeys p hp)
  refine ⟨?_, ?_, ?_, ?_⟩
  · rw [hB]
    exact colNames_map_pair _ _
  · intro p hp
    rw [hB, getCol_map_pair _ _ _ (List.mem_append_left _ (hkeys p hp))]
    exact getCol_limpioAsignado_mem gdf mapeo _ p.1 p.2 hndM hp
  · intro attr ha hnm
    rw [hB, getCol_map_pair _ _ _ (List.mem_append_left _ ha)]
    rw [getCol_limpioAsignado_not_mem gdf mapeo _ attr hnm]
    refine getCol_limpioRelleno_mem gdf atributos _ attr ha hndA ?_
    intro hmem
    rcases mem_colNames_limpioAsignado gdf mapeo _ attr hmem with h | h
    · have : attr = geometryName := by
        rcases List.mem_cons.mp h with h₂ | h₂
        · exact h₂
        · exact absurd h₂ (List.not_mem_nil _)
      exact hgeo (this ▸ ha)
    · exact hnm h
  · have hmemg : geometryName ∈ atributos ++ [geometryName] :=
      List.mem_append_right _ (List.mem_cons_self _ _)
    rw [hB, getCol_map_pair _ _ _ hmemg]
    rw [getCol_limpioAsignado_not_mem gdf mapeo _ _ hGeoKeys]
    rw [getCol_limpioRelleno_not_mem gdf atributos _ _ hgeo]
    rw [getCol_limpioAsignado_not_mem gdf mapeo _ _ hGeoKeys]
    simp [limpioBase, getCol_cons]

/-- Witness for C5: catalog attributes `nombre`, `categoria`; only `nombre`
is mapped (to source column `nom`). -/
theorem buildLimpio_spec_witness :
    colNames (buildLimpio
        [("geometry".data, [Value.geom (Geometry.point ⟨0, 0⟩)]),
          ("nom".data, [Value.str ['x']])]
        [("nombre".data, "nom".data)]
        ["nombre".data, "categoria".data]) =
      ["nombre".data, "categoria".data] ++ [geometryName] ∧
    (∀ p ∈ [("nombre".data, "nom".data)],
      getCol (buildLimpio
          [("geometry".data, [Value.geom (Geometry.point ⟨0, 0⟩)]),
            ("nom".data, [Value.str ['x']])]
          [("nombre".data, "nom".data)]
          ["nombre".data, "categoria".data]) p.1 =
        (getCol [("geometry".data, [Value.geom (Geometry.point ⟨0, 0⟩)]),
            ("nom".data, [Value.str ['x']])] p.2).map reparar_encoding) ∧
    (∀ attr ∈ ["nombre".data, "categoria".data],
      attr ∉ ([("nombre".data, "nom".data)] : List (Str × Str)).map Prod.fst →
      getCol (buildLimpio
          [("geometry".data, [Value.geom (Geometry.point ⟨0, 0⟩)]),
            ("nom".data, [Value.str ['x']])]
          [("nombre".data, "nom".data)]
          ["nombre".data, "categoria".data]) attr =
        List.replicate (nRows [("geometry".data,
          [Value.geom (Geometry.point ⟨0, 0⟩)]),
          ("nom".data, [Value.str ['x']])]) Value.null) ∧
    getCol (buildLimpio
        [("geometry".data, [Value.geom (Geometry.point ⟨0, 0⟩)]),
          ("nom".data, [Value.str ['x']])]
        [("nombre".data, "nom".data)]
        ["nombre".data, "categoria".data]) geometryName =
      getCol [("geometry".data, [Value.geom (Geometry.point ⟨0, 0⟩)]),
        ("nom".data, [Value.str ['x']])] geometryName :=
  buildLimpio_spec
    [("geometry".data, [Value.geom (Geometry.point ⟨0, 0⟩)]),
      ("nom".data, [Value.str ['x']])]
    [("nombre".data, "nom".data)]
    ["nombre".data, "categoria".data]
    (by decide) (by decide) (by decide) (by decide)

end Idera
